import Mathlib

/-!
Shallow embedding of the hyperparameter-search notebook
(`src/MLFLOW/wine-ml.ipynb`) and of the orchestration core described by
its specification.

Layer 1 embeds the notebook's own code: `model_train`, `objective`, and
the best-run selection `sorted(trials.results, key = lambda x: x["loss"])[0]`.
The keras fit/evaluate body is an external collaborator and is passed in as
an oracle argument; an exception raised by it is an `Except.error`, and the
`with mlflow.start_run(nested = True)` block is modelled by the nested run
record that `model_train` produces alongside its result.

Layer 2 models, from the specification, the orchestration core that the
notebook delegates to the hyperopt and mlflow libraries: run records, the
sequential search loop, the domain samplers and the proposal engine.
-/

namespace WineML

/-- A floating-point evaluation score as produced by `model.evaluate`:
a finite value, positive infinity, or NaN (divergent training). -/
inductive Score where
  | finite (q : ℚ)
  | posInf
  | nan
deriving DecidableEq

/-- The hyperopt result status constants `STATUS_OK` / `STATUS_FAIL`. -/
inductive HpStatus where
  | STATUS_OK
  | STATUS_FAIL
deriving DecidableEq

/-- An exception raised by the keras fit/evaluate body of a trial. -/
inductive TrainError where
  | raised
deriving DecidableEq

/-- Opaque handle to a fitted keras model object. -/
abbrev Model := ℕ

/-- Opaque handle to one of the pre-split datasets (feature matrix or
target vector); the notebook never re-splits or mutates them inside a trial. -/
abbrev Dataset := ℕ

/-- The hyperparameter dictionary `params` with keys `"lr"` and
`"momentum"`, the only keys `model_train` reads. -/
structure HParams where
  lr : ℚ
  momentum : ℚ
deriving DecidableEq

/-- Status of a run record: `running` until sealed, then `completed` or
`failed`. -/
inductive RunStatus where
  | running
  | completed
  | failed
deriving DecidableEq

/-- The nested mlflow run created by `model_train`'s
`with mlflow.start_run(nested = True)` block: what got logged to it, and
the status it was sealed with when the block exited. -/
structure NestedRun where
  paramsLogged : Option HParams
  metricLogged : Option (String × Score)
  modelLogged : Option Model
  status : RunStatus
deriving DecidableEq

/-- The dictionary `{"loss": eval_rmse, "status": STATUS_OK, "model": model}`
returned by `model_train`. -/
structure TrainOutcome where
  loss : Score
  status : HpStatus
  model : Model
deriving DecidableEq

/-- The keras part of `model_train` (build, compile, `model.fit`,
`model.evaluate`): an external collaborator that, given the
hyperparameters, the epoch count and the training and validation data,
either returns the evaluation RMSE together with the fitted model or
raises. It never sees the test data. -/
abbrev FitEval := HParams → ℕ → Dataset → Dataset → Dataset → Dataset →
    Except TrainError (Score × Model)

/-- Embeds the notebook's `model_train(params, epochs, train_X, train_y,
validation_X, validation_y, test_X, test_y)`. The keras body runs inside
the nested mlflow run scope; on success the code logs `params`, the metric
`eval_rmse` and the model to that run and returns the hyperopt result dict
with `STATUS_OK`; if the body raises, the `with` block seals the nested
run as failed and the exception propagates (there is no handler). The
returned pair is (the sealed nested run record, the result or the
propagated exception). -/
def model_train (fitEval : FitEval) (params : HParams) (epochs : ℕ)
    (train_X train_y validation_X validation_y test_X test_y : Dataset) :
    NestedRun × Except TrainError TrainOutcome :=
  match fitEval params epochs train_X train_y validation_X validation_y with
  | .error e =>
      ({ paramsLogged := none, metricLogged := none, modelLogged := none,
         status := .failed },
       .error e)
  | .ok (eval_rmse, m) =>
      ({ paramsLogged := some params,
         metricLogged := some ("eval_rmse", eval_rmse),
         modelLogged := some m,
         status := .completed },
       .ok { loss := eval_rmse, status := .STATUS_OK, model := m })

/-- Embeds the notebook's `objective(params)`: calls `model_train` with
`epochs = 3` and the notebook-global datasets, forwarding the test split
as well, and returns its result unchanged. -/
def objective (fitEval : FitEval)
    (train_X train_y validation_X validation_y test_X test_y : Dataset)
    (params : HParams) : NestedRun × Except TrainError TrainOutcome :=
  model_train fitEval params 3 train_X train_y validation_X validation_y
    test_X test_y

/-- A configuration: mapping from parameter name to sampled value. -/
abbrev Config := List (String × ℚ)

/-- Opaque reference to a stored artifact. -/
abbrev Artifact := ℕ

/-- A TrialResult of the orchestration core: configuration, lower-is-better
score (`⊤` standing for +infinity, the score recorded for a failed trial),
artifact reference (none for a failed trial) and the owning run record id. -/
structure TrialResult where
  config : Config
  score : WithTop ℚ
  artifact : Option Artifact
  runId : ℕ
deriving DecidableEq

/-- A run record of the Run Recorder: identity, parent reference (none for
the top-level search run), logged metric (name, value, step) triples, logged
parameters, logged artifact references, status and start/end timestamps.
Sealing sets the status to a terminal value and fills the end timestamp. -/
structure RunRecord where
  id : ℕ
  parent : Option ℕ
  params : Config
  metrics : List (String × WithTop ℚ × ℕ)
  artifacts : List (String × Artifact)
  status : RunStatus
  startTime : ℕ
  endTime : Option ℕ
deriving DecidableEq

/-- Embeds the notebook's best-run selection
`best_run = sorted(trials.results, key = lambda x: x["loss"])[0]`:
`insertTrial` is one step of the stable sort by score that Python's
`sorted` performs (an element is inserted before the first element of
strictly greater or equal score it does not have to pass). -/
def insertTrial (a : TrialResult) : List TrialResult → List TrialResult
  | [] => [a]
  | b :: l => if a.score ≤ b.score then a :: b :: l else b :: insertTrial a l

/-- Stable sort of the trial results by score, modelling Python's stable
`sorted(results, key = lambda x: x["loss"])`. -/
def sortTrials : List TrialResult → List TrialResult
  | [] => []
  | a :: l => insertTrial a (sortTrials l)

/-- The selected best run: the head of the stably sorted result list,
embedding `sorted(trials.results, key = lambda x: x["loss"])[0]`. -/
def best_run (results : List TrialResult) : Option TrialResult :=
  (sortTrials results).head?

/-- The Trainer as the Orchestrator sees it: a configuration either yields
a finite score together with an artifact, or raises. -/
abbrev TrainerFn := Config → Except TrainError (ℚ × Artifact)

/-- The pluggable Proposal Engine interface: given the trial history so far
and the rng seed, produce the next configuration to try. -/
abbrev ProposeFn := List TrialResult → ℕ → Config

/-- Modelled from the spec: one iteration of the Orchestrator's search
loop (spec 4.5), covering the child-run scope that the notebook delegates
to mlflow and hyperopt. `idx` is the number of trials already recorded.
The child run begins after the top-level run began (timestamps count
recorder events: the top-level run starts at time 0, child `idx` occupies
times `2*idx+1` and `2*idx+2`), is a child of the top-level run (id 0),
and is sealed on both exits: completed with the params, metric and
artifact logged when the Trainer returns, failed with score recorded as
+infinity when the Trainer raises. -/
def runTrial (trainer : TrainerFn) (cfg : Config) (idx : ℕ) :
    RunRecord × TrialResult :=
  let rid := idx + 1
  let t0 := 2 * idx + 1
  match trainer cfg with
  | .ok (q, art) =>
      ({ id := rid, parent := some 0, params := cfg,
         metrics := [("score", ((q : ℚ) : WithTop ℚ), idx)],
         artifacts := [("model", art)],
         status := .completed, startTime := t0, endTime := some (t0 + 1) },
       { config := cfg, score := ((q : ℚ) : WithTop ℚ), artifact := some art,
         runId := rid })
  | .error _ =>
      ({ id := rid, parent := some 0, params := cfg, metrics := [],
         artifacts := [],
         status := .failed, startTime := t0, endTime := some (t0 + 1) },
       { config := cfg, score := ⊤, artifact := none, runId := rid })

/-- Modelled from the spec: the Orchestrator's loop while `Running`
(spec 4.5) — repeat `n` more times given the history `hist` so far:
propose a configuration from the history, run the trial in a fresh child
run scope, append the TrialResult to the search state, continue. -/
def searchSteps (trainer : TrainerFn) (prop : ProposeFn) (seed : ℕ) :
    ℕ → List TrialResult → List (RunRecord × TrialResult)
  | 0, _ => []
  | n + 1, hist =>
      let cfg := prop hist seed
      let step := runTrial trainer cfg hist.length
      step :: searchSteps trainer prop seed n (hist ++ [step.2])

/-- The outcome of a completed search: the sealed top-level run record,
the sealed child run records, the final SearchState, the BestSelection,
and the invocations made on the Promotion/Registry Gateway
(artifact, configuration, score). -/
structure SearchResult where
  topRecord : RunRecord
  children : List RunRecord
  state : List TrialResult
  best : Option TrialResult
  registryCalls : List (Artifact × Config × WithTop ℚ)
deriving DecidableEq

/-- Modelled from the spec: `run_search(budget)` (spec 4.5), the
Orchestrator state machine the notebook realizes through
`with mlflow.start_run(): fmin(...)` — begin the top-level run, repeat the
trial loop `budget` times, compute BestSelection over the SearchState,
log its configuration and score onto the top-level run, end the top-level
run with status completed, and invoke the registry once with
BestSelection's artifact and its configuration and score as metadata
(no registration happens when the best trial has no artifact, i.e. when
every trial failed). -/
def run_search (trainer : TrainerFn) (prop : ProposeFn) (seed budget : ℕ) :
    SearchResult :=
  let steps := searchSteps trainer prop seed budget []
  let st := steps.map Prod.snd
  let b := best_run st
  { topRecord :=
      { id := 0, parent := none,
        params := match b with | some t => t.config | none => [],
        metrics := match b with | some t => [("score", t.score, budget)] | none => [],
        artifacts := [],
        status := .completed, startTime := 0,
        endTime := some (2 * budget + 1) },
    children := steps.map Prod.fst,
    state := st,
    best := b,
    registryCalls :=
      match b with
      | some t =>
          match t.artifact with
          | some a => [(a, t.config, t.score)]
          | none => []
      | none => [] }

/-- Modelled from the spec: the uniform domain sampler of the Search
Space (spec 4.2) — a unit-interval rng draw `u` mapped affinely onto
`[lo, hi]`. -/
noncomputable def uniformSample (lo hi u : ℝ) : ℝ := lo + u * (hi - lo)

/-- Modelled from the spec: the log-uniform domain sampler (spec 4.2) —
the exponential of a uniform draw between `ln lo` and `ln hi`. -/
noncomputable def loguniformSample (lo hi u : ℝ) : ℝ :=
  Real.exp (uniformSample (Real.log lo) (Real.log hi) u)

/-- Modelled from the spec: the categorical domain sampler (spec 4.2) —
uniform over the choice set, via an rng index draw reduced modulo the
number of choices. -/
def categoricalSample (choices : List ℚ) (k : ℕ) : Option ℚ :=
  choices[k % choices.length]?

/-- Modelled from the spec: the deterministic rng stream behind `sample`
(spec 4.2 requires reproducibility for a fixed seed/state); one step of a
linear congruential generator. -/
def lcgNext (s : ℕ) : ℕ := (1103515245 * s + 12345) % 2147483648

/-- Modelled from the spec: a unit-interval draw from the rng state. -/
noncomputable def unitDraw (s : ℕ) : ℝ := (lcgNext s : ℝ) / 2147483648

/-- The notebook's search space, key `"lr"`:
`hp.loguniform("lr", np.log(1e-5), np.log(1e-1))`, i.e. a log-uniform
draw between 1e-5 and 1e-1. -/
noncomputable def space_lr (u : ℝ) : ℝ := loguniformSample (1 / 100000) (1 / 10) u

/-- The notebook's search space, key `"momentum"`:
`hp.uniform("momentum", 0.0, 1.0)`. -/
noncomputable def space_momentum (u : ℝ) : ℝ := uniformSample 0 1 u

/-- Modelled from the spec: `sample(rng)` over the notebook's search
space — each ParameterSpec is sampled independently, from successive
states of the rng stream. -/
noncomputable def sample (seed : ℕ) : ℝ × ℝ :=
  (space_lr (unitDraw seed), space_momentum (unitDraw (lcgNext seed)))

/-- Modelled from the spec: the Proposal Engine `propose` (spec 4.3), a
pluggable black box that must be deterministic in (history, seed) and
must tolerate a history of length 1: with no fittable surrogate
(history of length at most 1) it falls back to the space-filling draw,
otherwise to a surrogate-guided draw modelled as a draw from the seed
mixed with the history length. -/
noncomputable def propose (hist : List TrialResult) (seed : ℕ) : ℝ × ℝ :=
  if hist.length ≤ 1 then sample seed else sample (seed + hist.length)

/-- The Boolean test "x scores no worse than every element of `l`", used
to state the tie-break policy of the best-run selection. -/
def isMinIn (l : List TrialResult) (x : TrialResult) : Bool :=
  decide (∀ y ∈ l, x.score ≤ y.score)

/-- A concrete trial result used by the witnesses. -/
def wTrial (q : ℚ) (i : ℕ) : TrialResult :=
  { config := [("lr", q)], score := (q : WithTop ℚ), artifact := some i, runId := i }

/-- A concrete always-succeeding Trainer used by the witnesses. -/
def okTrainer : TrainerFn := fun _ => Except.ok (2, 5)

/-- A concrete proposal function used by the witnesses. -/
def constProp : ProposeFn := fun _ _ => [("lr", 1)]

/-- A concrete fit/evaluate oracle that succeeds with score 2 and model 7,
used by the witnesses. -/
def okFitEval : FitEval := fun _ _ _ _ _ _ => Except.ok (Score.finite 2, 7)

/-- A fit/evaluate oracle that always raises, modelling a Trainer whose
training body always throws. -/
def raisingFitEval : FitEval := fun _ _ _ _ _ _ => Except.error TrainError.raised

/-- A fit/evaluate oracle whose evaluation diverges to a NaN score. -/
def nanFitEval : FitEval := fun _ _ _ _ _ _ => Except.ok (Score.nan, 9)

/-- The concrete result dictionary produced by `okFitEval`, used by the
witnesses. -/
def okOutcome : TrainOutcome :=
  { loss := Score.finite 2, status := .STATUS_OK, model := 7 }

/-- The trial result that `run_search okTrainer constProp` records on its
first iteration, used by the witnesses. -/
def okTrialResult : TrialResult :=
  { config := [("lr", 1)], score := ((2 : ℚ) : WithTop ℚ),
    artifact := some 5, runId := 1 }

/-! ### Properties of the stable best-run sort -/

theorem mem_insertTrial (a x : TrialResult) (l : List TrialResult) :
    x ∈ insertTrial a l ↔ x = a ∨ x ∈ l := by
  induction l with
  | nil => simp [insertTrial]
  | cons b t ih =>
      by_cases h : a.score ≤ b.score
      · simp [insertTrial, h]
      · simp [insertTrial, h, ih]
        tauto

theorem mem_sortTrials (x : TrialResult) (l : List TrialResult) :
    x ∈ sortTrials l ↔ x ∈ l := by
  induction l with
  | nil => simp [sortTrials]
  | cons a t ih => simp [sortTrials, mem_insertTrial, ih]

theorem sortTrials_eq_nil (l : List TrialResult) (h : sortTrials l = []) :
    l = [] := by
  cases l with
  | nil => rfl
  | cons a t =>
      have : a ∈ sortTrials (a :: t) :=
        (mem_sortTrials a (a :: t)).mpr (List.mem_cons_self a t)
      rw [h] at this
      exact absurd this (List.not_mem_nil a)

theorem pairwise_insertTrial (a : TrialResult) (l : List TrialResult)
    (h : l.Pairwise (fun x y => x.score ≤ y.score)) :
    (insertTrial a l).Pairwise (fun x y => x.score ≤ y.score) := by
  induction l with
  | nil => simp [insertTrial]
  | cons b t ih =>
      rcases List.pairwise_cons.mp h with ⟨hb, ht⟩
      by_cases hab : a.score ≤ b.score
      · rw [insertTrial, if_pos hab]
        refine List.pairwise_cons.mpr ⟨?_, h⟩
        intro z hz
        rcases List.mem_cons.mp hz with rfl | hz
        · exact hab
        · exact le_trans hab (hb z hz)
      · rw [insertTrial, if_neg hab]
        refine List.pairwise_cons.mpr ⟨?_, ih ht⟩
        intro z hz
        rcases (mem_insertTrial a z t).mp hz with rfl | hz
        · exact le_of_not_le hab
        · exact hb z hz

theorem pairwise_sortTrials (l : List TrialResult) :
    (sortTrials l).Pairwise (fun x y => x.score ≤ y.score) := by
  induction l with
  | nil => simp [sortTrials]
  | cons a t ih => exact pairwise_insertTrial a (sortTrials t) ih

theorem sortTrials_head_min (l : List TrialResult) (b : TrialResult)
    (t : List TrialResult) (h : sortTrials l = b :: t) :
    ∀ x ∈ l, b.score ≤ x.score := by
  intro x hx
  have hx2 : x ∈ b :: t := h ▸ (mem_sortTrials x l).mpr hx
  rcases List.mem_cons.mp hx2 with rfl | hx2
  · exact le_refl _
  · have hp := pairwise_sortTrials l
    rw [h] at hp
    exact (List.pairwise_cons.mp hp).1 x hx2

theorem find?_congr_on (p q : TrialResult → Bool) (l : List TrialResult)
    (h : ∀ x ∈ l, p x = q x) : l.find? p = l.find? q := by
  induction l with
  | nil => rfl
  | cons a t ih =>
      have ha := h a (List.mem_cons_self a t)
      cases hq : q a with
      | false =>
          rw [List.find?_cons_of_neg t (by simp [ha, hq]),
            List.find?_cons_of_neg t (by simp [hq])]
          exact ih (fun x hx => h x (List.mem_cons_of_mem a hx))
      | true =>
          rw [List.find?_cons_of_pos t (by simp [ha, hq]),
            List.find?_cons_of_pos t (by simp [hq])]

/-- The head of the stable sort is the earliest trial attaining the
minimum score: it equals `find?` for "scores no worse than everything". -/
theorem sortTrials_head_eq_find (l : List TrialResult) :
    (sortTrials l).head? = l.find? (isMinIn l) := by
  induction l with
  | nil => rfl
  | cons x xs ih =>
      cases hs : sortTrials xs with
      | nil =>
          have hxs : xs = [] := sortTrials_eq_nil xs hs
          subst hxs
          have hpx : isMinIn [x] x = true := by simp [isMinIn]
          rw [List.find?_cons_of_pos [] hpx]
          simp [sortTrials, insertTrial]
      | cons h t =>
          have hmin : ∀ y ∈ xs, h.score ≤ y.score := sortTrials_head_min xs h t hs
          have hmem : h ∈ xs := (mem_sortTrials h xs).mp (hs ▸ List.mem_cons_self h t)
          by_cases hxh : x.score ≤ h.score
          · have hpx : isMinIn (x :: xs) x = true := by
              have hall : ∀ y ∈ x :: xs, x.score ≤ y.score := by
                intro y hy
                rcases List.mem_cons.mp hy with rfl | hy
                · exact le_refl _
                · exact le_trans hxh (hmin y hy)
              simpa [isMinIn] using hall
            rw [List.find?_cons_of_pos xs hpx]
            simp [sortTrials, hs, insertTrial, hxh]
          · have hhx : h.score ≤ x.score := le_of_not_le hxh
            have hpx : isMinIn (x :: xs) x = false := by
              have hnot : ¬ ∀ y ∈ x :: xs, x.score ≤ y.score := by
                intro hall
                exact hxh (hall h (List.mem_cons_of_mem x hmem))
              simpa [isMinIn] using hnot
            rw [List.find?_cons_of_neg xs (by simp [hpx])]
            have hcongr : xs.find? (isMinIn (x :: xs)) = xs.find? (isMinIn xs) := by
              apply find?_congr_on
              intro y hy
              by_cases hy2 : ∀ z ∈ xs, y.score ≤ z.score
              · have hall : ∀ z ∈ x :: xs, y.score ≤ z.score := by
                  intro z hz
                  rcases List.mem_cons.mp hz with rfl | hz
                  · exact le_trans (hy2 h hmem) hhx
                  · exact hy2 z hz
                simp [isMinIn, hall, hy2]
              · have hnot : ¬ ∀ z ∈ x :: xs, y.score ≤ z.score := by
                  intro hall
                  exact hy2 (fun z hz => hall z (List.mem_cons_of_mem x hz))
                simp [isMinIn, hnot, hy2]
            rw [hcongr, ← ih]
            simp [sortTrials, hs, insertTrial, hxh]

/-- Claim C1: for every non-empty list of trial results, the best-run
selection `sorted(trials.results, key = lambda x: x["loss"])[0]` returns a
trial whose score is at most every other trial's score, and on ties it is
the earliest-recorded such trial (it equals the first list element whose
score is at most every score in the list). -/
theorem best_run_min_earliest (results : List TrialResult)
    (h : results ≠ []) :
    ∃ b, best_run results = some b ∧ b ∈ results ∧
      (∀ x ∈ results, b.score ≤ x.score) ∧
      best_run results = results.find? (isMinIn results) := by
  cases hs : sortTrials results with
  | nil => exact absurd (sortTrials_eq_nil results hs) h
  | cons b t =>
      refine ⟨b, ?_, ?_, ?_, ?_⟩
      · simp [best_run, hs]
      · exact (mem_sortTrials b results).mp (hs ▸ List.mem_cons_self b t)
      · exact sortTrials_head_min results b t hs
      · exact sortTrials_head_eq_find results

/-- Witness for C1 at a concrete input with a tie: scores 5, 3, 3 — the
trial with run id 2 (the earlier of the two score-3 trials) is selected. -/
theorem best_run_min_earliest_witness :
    ([wTrial 5 1, wTrial 3 2, wTrial 3 3] ≠ ([] : List TrialResult)) ∧
      (∃ b, best_run [wTrial 5 1, wTrial 3 2, wTrial 3 3] = some b ∧
        b ∈ [wTrial 5 1, wTrial 3 2, wTrial 3 3] ∧
        (∀ x ∈ [wTrial 5 1, wTrial 3 2, wTrial 3 3], b.score ≤ x.score) ∧
        best_run [wTrial 5 1, wTrial 3 2, wTrial 3 3] =
          [wTrial 5 1, wTrial 3 2, wTrial 3 3].find?
            (isMinIn [wTrial 5 1, wTrial 3 2, wTrial 3 3])) ∧
      best_run [wTrial 5 1, wTrial 3 2, wTrial 3 3] = some (wTrial 3 2) :=
  ⟨by simp, best_run_min_earliest _ (by simp), by decide⟩

/-! ### Properties of `model_train` and `objective` -/

/-- Claim C2 counterexample: `model_train` neither replaces a non-finite
score by +infinity nor records a raising trial — with an always-raising
training body the exception propagates out of the trial as is (no
TrialResult dict is produced at all), and with a NaN evaluation score the
NaN is returned unchanged under `STATUS_OK`, not +infinity. -/
theorem model_train_no_inf_substitution :
    ((model_train raisingFitEval ⟨1, 1⟩ 3 0 0 0 0 0 0).2 =
        Except.error TrainError.raised) ∧
      ((model_train nanFitEval ⟨1, 1⟩ 3 0 0 0 0 0 0).2 =
        Except.ok { loss := Score.nan, status := .STATUS_OK, model := 9 }) ∧
      Score.nan ≠ Score.posInf :=
  ⟨rfl, rfl, by decide⟩

/-- Claim C2 (amended): `model_train` contains no exception handler and no
score substitution — when the training body raises, the error propagates
out of the trial unchanged (the nested run is still sealed as failed), and
when the body returns a score, that score (finite or not) is returned
unchanged with `STATUS_OK`; no path records +infinity in place of a
failure. -/
theorem model_train_propagates_failure (fitEval : FitEval) (params : HParams)
    (epochs : ℕ)
    (train_X train_y validation_X validation_y test_X test_y : Dataset) :
    (∀ e, fitEval params epochs train_X train_y validation_X validation_y =
        Except.error e →
      (model_train fitEval params epochs train_X train_y validation_X
          validation_y test_X test_y).2 = Except.error e ∧
      (model_train fitEval params epochs train_X train_y validation_X
          validation_y test_X test_y).1.status = RunStatus.failed) ∧
    (∀ s m, fitEval params epochs train_X train_y validation_X validation_y =
        Except.ok (s, m) →
      (model_train fitEval params epochs train_X train_y validation_X
          validation_y test_X test_y).2 =
        Except.ok { loss := s, status := .STATUS_OK, model := m }) := by
  constructor
  · intro e he
    constructor <;> simp [model_train, he]
  · intro s m hs
    simp [model_train, hs]

/-- Witness for the amended C2 at the always-raising training body. -/
theorem model_train_propagates_failure_witness :
    (raisingFitEval ⟨1, 1⟩ 3 0 0 0 0 = Except.error TrainError.raised) ∧
      ((model_train raisingFitEval ⟨1, 1⟩ 3 0 0 0 0 0 0).2 =
          Except.error TrainError.raised ∧
        (model_train raisingFitEval ⟨1, 1⟩ 3 0 0 0 0 0 0).1.status =
          RunStatus.failed) :=
  ⟨rfl,
    (model_train_propagates_failure raisingFitEval ⟨1, 1⟩ 3 0 0 0 0 0 0).1
      TrainError.raised rfl⟩

/-- Claim C4: the nested run that `model_train` begins is sealed on every
exit path of its `with` scope — completed when the training body returns,
failed when it raises — and is never left in the running state when
control returns to the search loop. -/
theorem model_train_seals_run (fitEval : FitEval) (params : HParams)
    (epochs : ℕ)
    (train_X train_y validation_X validation_y test_X test_y : Dataset) :
    (model_train fitEval params epochs train_X train_y validation_X
        validation_y test_X test_y).1.status ≠ RunStatus.running ∧
    (model_train fitEval params epochs train_X train_y validation_X
        validation_y test_X test_y).1.status =
      (match fitEval params epochs train_X train_y validation_X validation_y with
        | .error _ => RunStatus.failed
        | .ok _ => RunStatus.completed) := by
  cases h : fitEval params epochs train_X train_y validation_X validation_y with
  | error e => constructor <;> simp [model_train, h]
  | ok v =>
      cases v with
      | mk s m => constructor <;> simp [model_train, h]

/-- Claim C9: the score returned by `model_train` is independent of the
test/holdout data — the `test_X` and `test_y` arguments are accepted but
never used, so two calls differing only in them return identical results;
the same holds through `objective`. -/
theorem model_train_ignores_test (fitEval : FitEval) (params : HParams)
    (epochs : ℕ) (train_X train_y validation_X validation_y : Dataset)
    (test_Xa test_ya test_Xb test_yb : Dataset) :
    (model_train fitEval params epochs train_X train_y validation_X
        validation_y test_Xa test_ya =
      model_train fitEval params epochs train_X train_y validation_X
        validation_y test_Xb test_yb) ∧
    (objective fitEval train_X train_y validation_X validation_y
        test_Xa test_ya params =
      objective fitEval train_X train_y validation_X validation_y
        test_Xb test_yb params) :=
  ⟨rfl, rfl⟩

/-- Claim C10: every result dictionary returned by `model_train` carries
`STATUS_OK`, whatever the evaluated loss is, and the loss it carries is
the evaluation result unchanged (no failure status, no sentinel score). -/
theorem model_train_status_ok (fitEval : FitEval) (params : HParams)
    (epochs : ℕ)
    (train_X train_y validation_X validation_y test_X test_y : Dataset)
    (o : TrainOutcome)
    (h : (model_train fitEval params epochs train_X train_y validation_X
        validation_y test_X test_y).2 = Except.ok o) :
    o.status = HpStatus.STATUS_OK ∧
      fitEval params epochs train_X train_y validation_X validation_y =
        Except.ok (o.loss, o.model) := by
  cases hf : fitEval params epochs train_X train_y validation_X validation_y with
  | error e => simp [model_train, hf] at h
  | ok v =>
      cases v with
      | mk s m =>
          simp [model_train, hf] at h
          subst h
          exact ⟨rfl, rfl⟩

/-- Witness for C10 at a concrete succeeding training body. -/
theorem model_train_status_ok_witness :
    ((model_train okFitEval ⟨1, 1⟩ 3 0 0 0 0 0 0).2 = Except.ok okOutcome) ∧
      (okOutcome.status = HpStatus.STATUS_OK ∧
        okFitEval ⟨1, 1⟩ 3 0 0 0 0 =
          Except.ok (okOutcome.loss, okOutcome.model)) :=
  ⟨rfl, model_train_status_ok okFitEval ⟨1, 1⟩ 3 0 0 0 0 0 0 _ rfl⟩

/-! ### Properties of the orchestrator loop -/

theorem searchSteps_length (trainer : TrainerFn) (prop : ProposeFn) (seed : ℕ) :
    ∀ (n : ℕ) (hist : List TrialResult),
      (searchSteps trainer prop seed n hist).length = n := by
  intro n
  induction n with
  | zero => intro hist; rfl
  | succ k ih => intro hist; simp [searchSteps, ih]

theorem searchSteps_mem (trainer : TrainerFn) (prop : ProposeFn) (seed : ℕ) :
    ∀ (n : ℕ) (hist : List TrialResult) (p : RunRecord × TrialResult),
      p ∈ searchSteps trainer prop seed n hist →
      p.1.parent = some 0 ∧ p.1.status ≠ RunStatus.running ∧
        p.1.id = p.2.runId ∧
        2 * hist.length + 1 ≤ p.1.startTime ∧
        p.1.endTime = some (p.1.startTime + 1) ∧
        p.1.startTime + 1 ≤ 2 * (hist.length + n) := by
  intro n
  induction n with
  | zero => intro hist p hp; simp [searchSteps] at hp
  | succ k ih =>
      intro hist p hp
      simp only [searchSteps] at hp
      rcases List.mem_cons.mp hp with rfl | hp
      · cases htr : trainer (prop hist seed) with
        | ok v =>
            cases v with
            | mk q a =>
                refine ⟨?_, ?_, ?_, ?_, ?_, ?_⟩ <;> simp [runTrial, htr] <;> omega
        | error e =>
            refine ⟨?_, ?_, ?_, ?_, ?_, ?_⟩ <;> simp [runTrial, htr] <;> omega
      · have h2 := ih (hist ++ [(runTrial trainer (prop hist seed) hist.length).2]) p hp
        rcases h2 with ⟨h2a, h2b, h2c, h2d, h2e, h2f⟩
        rw [List.length_append] at h2d h2f
        simp only [List.length_singleton] at h2d h2f
        exact ⟨h2a, h2b, h2c, by omega, h2e, by omega⟩

theorem searchSteps_mem_ok (trainer : TrainerFn) (prop : ProposeFn) (seed : ℕ)
    (hok : ∀ cfg, ∃ q a, trainer cfg = Except.ok (q, a)) :
    ∀ (n : ℕ) (hist : List TrialResult) (p : RunRecord × TrialResult),
      p ∈ searchSteps trainer prop seed n hist →
      ∃ a, p.2.artifact = some a := by
  intro n
  induction n with
  | zero => intro hist p hp; simp [searchSteps] at hp
  | succ k ih =>
      intro hist p hp
      simp only [searchSteps] at hp
      rcases List.mem_cons.mp hp with rfl | hp
      · rcases hok (prop hist seed) with ⟨q, a, htr⟩
        exact ⟨a, by simp [runTrial, htr]⟩
      · exact ih _ p hp

/-- Claim C3: for every positive trial budget, the search creates exactly
`budget` child run records, each a child of the top-level run, and none of
them is left in the running state when the search returns. -/
theorem run_search_children (trainer : TrainerFn) (prop : ProposeFn)
    (seed budget : ℕ) (hB : 1 ≤ budget) :
    (run_search trainer prop seed budget).children.length = budget ∧
      ∀ r ∈ (run_search trainer prop seed budget).children,
        r.parent = some (run_search trainer prop seed budget).topRecord.id ∧
          r.status ≠ RunStatus.running := by
  constructor
  · simp [run_search, searchSteps_length]
  · intro r hr
    simp only [run_search, List.mem_map] at hr
    rcases hr with ⟨p, hp, rfl⟩
    have h := searchSteps_mem trainer prop seed budget [] p hp
    exact ⟨by simpa [run_search] using h.1, h.2.1⟩

/-- Witness for C3 with budget 2 and a concrete trainer. -/
theorem run_search_children_witness :
    1 ≤ 2 ∧
      ((run_search okTrainer constProp 0 2).children.length = 2 ∧
        ∀ r ∈ (run_search okTrainer constProp 0 2).children,
          r.parent = some (run_search okTrainer constProp 0 2).topRecord.id ∧
            r.status ≠ RunStatus.running) :=
  ⟨by decide, run_search_children okTrainer constProp 0 2 (by decide)⟩

/-- Claim C8: every trial result of the search is owned by a child run
record whose one and only parent is the top-level search run, and the
top-level run's lifetime strictly contains the child's: the child starts
after the top-level run started and is sealed before the top-level run is
sealed. -/
theorem trial_run_nesting (trainer : TrainerFn) (prop : ProposeFn)
    (seed budget : ℕ) (t : TrialResult)
    (ht : t ∈ (run_search trainer prop seed budget).state) :
    ∃ r ∈ (run_search trainer prop seed budget).children,
      r.id = t.runId ∧
      (∀ pid, r.parent = some pid ↔
        pid = (run_search trainer prop seed budget).topRecord.id) ∧
      r.status ≠ RunStatus.running ∧
      (run_search trainer prop seed budget).topRecord.startTime < r.startTime ∧
      ∃ e te, r.endTime = some e ∧
        (run_search trainer prop seed budget).topRecord.endTime = some te ∧
        e < te := by
  simp only [run_search, List.mem_map] at ht
  rcases ht with ⟨p, hp, rfl⟩
  have h := searchSteps_mem trainer prop seed budget [] p hp
  rcases h with ⟨ha, hb, hc, hd, he, hf⟩
  refine ⟨p.1, ?_, hc, ?_, hb, ?_, p.1.startTime + 1, 2 * budget + 1, he, ?_, ?_⟩
  · simp only [run_search, List.mem_map]
    exact ⟨p, hp, rfl⟩
  · intro pid
    rw [ha]
    constructor
    · intro hpid
      simp only [Option.some.injEq] at hpid
      simp [run_search, ← hpid]
    · intro hpid
      simp only [run_search] at hpid
      simp [hpid]
  · simp only [run_search]
    omega
  · simp [run_search]
  · simp only [List.length_nil] at hf
    omega

/-- Witness for C8 at a concrete one-trial search. -/
theorem trial_run_nesting_witness :
    (okTrialResult ∈ (run_search okTrainer constProp 0 1).state) ∧
    (∃ r ∈ (run_search okTrainer constProp 0 1).children,
      r.id = okTrialResult.runId ∧
      (∀ pid, r.parent = some pid ↔
        pid = (run_search okTrainer constProp 0 1).topRecord.id) ∧
      r.status ≠ RunStatus.running ∧
      (run_search okTrainer constProp 0 1).topRecord.startTime < r.startTime ∧
      ∃ e te, r.endTime = some e ∧
        (run_search okTrainer constProp 0 1).topRecord.endTime = some te ∧
        e < te) :=
  ⟨by decide, trial_run_nesting okTrainer constProp 0 1 _ (by decide)⟩

/-- Claim C5: when every trial reaches a terminal status, the search ends
by computing the best selection, logging its configuration and score onto
the top-level run record, sealing the top-level record as completed, and
invoking the registry exactly once, after completion, with the best
trial's artifact and its configuration and score as metadata. -/
theorem run_search_completion (trainer : TrainerFn) (prop : ProposeFn)
    (seed budget : ℕ) (hB : 1 ≤ budget)
    (hok : ∀ cfg, ∃ q a, trainer cfg = Except.ok (q, a)) :
    ∃ b, (run_search trainer prop seed budget).best = some b ∧
      ∃ a, b.artifact = some a ∧
        (run_search trainer prop seed budget).registryCalls =
          [(a, b.config, b.score)] ∧
        (run_search trainer prop seed budget).topRecord.status =
          RunStatus.completed ∧
        (run_search trainer prop seed budget).topRecord.params = b.config ∧
        (run_search trainer prop seed budget).topRecord.metrics =
          [("score", b.score, budget)] ∧
        (run_search trainer prop seed budget).topRecord.endTime =
          some (2 * budget + 1) := by
  have hlen : (searchSteps trainer prop seed budget []).length = budget :=
    searchSteps_length trainer prop seed budget []
  set st := (searchSteps trainer prop seed budget []).map Prod.snd with hst
  cases hsrt : sortTrials st with
  | nil =>
      have : st = [] := sortTrials_eq_nil st hsrt
      have : budget = 0 := by
        rw [← hlen, ← List.length_map (searchSteps trainer prop seed budget []) Prod.snd, ← hst, this]
        rfl
      omega
  | cons b tl =>
      have hbest : best_run st = some b := by simp [best_run, hsrt]
      have hbmem : b ∈ st := (mem_sortTrials b st).mp (hsrt ▸ List.mem_cons_self b tl)
      rw [hst] at hbmem
      rcases List.mem_map.mp hbmem with ⟨p, hp, hpb⟩
      rcases searchSteps_mem_ok trainer prop seed hok budget [] p hp with ⟨a, hart⟩
      rw [hpb] at hart
      refine ⟨b, ?_, a, hart, ?_, ?_, ?_, ?_, ?_⟩ <;>
        simp [run_search, ← hst, hbest, hart]

/-- Witness for C5 at a concrete two-trial search. -/
theorem run_search_completion_witness :
    (1 ≤ 2 ∧ ∀ cfg, ∃ q a, okTrainer cfg = Except.ok (q, a)) ∧
      (∃ b, (run_search okTrainer constProp 0 2).best = some b ∧
        ∃ a, b.artifact = some a ∧
          (run_search okTrainer constProp 0 2).registryCalls =
            [(a, b.config, b.score)] ∧
          (run_search okTrainer constProp 0 2).topRecord.status =
            RunStatus.completed ∧
          (run_search okTrainer constProp 0 2).topRecord.params = b.config ∧
          (run_search okTrainer constProp 0 2).topRecord.metrics =
            [("score", b.score, 2)] ∧
          (run_search okTrainer constProp 0 2).topRecord.endTime =
            some (2 * 2 + 1)) :=
  ⟨⟨by decide, fun cfg => ⟨2, 5, rfl⟩⟩,
    run_search_completion okTrainer constProp 0 2 (by decide)
      (fun cfg => ⟨2, 5, rfl⟩)⟩

/-! ### Properties of the domain samplers and the proposal engine -/

theorem uniformSample_mem (lo hi u : ℝ) (hle : lo ≤ hi) (h0 : 0 ≤ u)
    (h1 : u ≤ 1) :
    lo ≤ uniformSample lo hi u ∧ uniformSample lo hi u ≤ hi := by
  unfold uniformSample
  constructor
  · nlinarith
  · nlinarith

theorem loguniformSample_mem (lo hi u : ℝ) (hlo : 0 < lo) (hlt : lo < hi)
    (h0 : 0 ≤ u) (h1 : u ≤ 1) :
    lo ≤ loguniformSample lo hi u ∧ loguniformSample lo hi u ≤ hi := by
  have hlog : Real.log lo ≤ Real.log hi := Real.log_le_log hlo (le_of_lt hlt)
  have hu := uniformSample_mem (Real.log lo) (Real.log hi) u hlog h0 h1
  unfold loguniformSample
  constructor
  · calc lo = Real.exp (Real.log lo) := (Real.exp_log hlo).symm
      _ ≤ _ := Real.exp_le_exp.mpr hu.1
  · calc Real.exp (uniformSample (Real.log lo) (Real.log hi) u)
        ≤ Real.exp (Real.log hi) := Real.exp_le_exp.mpr hu.2
      _ = hi := Real.exp_log (lt_trans hlo hlt)

theorem categoricalSample_mem (choices : List ℚ) (k : ℕ)
    (h : choices ≠ []) :
    ∃ c, categoricalSample choices k = some c ∧ c ∈ choices := by
  have hlen : 0 < choices.length := List.length_pos.mpr h
  have hk : k % choices.length < choices.length := Nat.mod_lt _ hlen
  refine ⟨choices.get ⟨k % choices.length, hk⟩, ?_, List.get_mem _ _ _⟩
  simp [categoricalSample, List.getElem?_eq_getElem hk]

/-- Claim C6: over every continuous domain with `lo < hi`, a log-uniform
sample is the exponential of a uniform draw between `ln lo` and `ln hi`
and always lies inside `[lo, hi]` (log-uniform domains additionally have
a positive lower bound for `ln lo` to exist); a uniform sample lies
inside `[lo, hi]` for any `lo < hi`, including `lo = 0`; a categorical
sample lies inside the choice set — no draw falls outside its declared
domain. -/
theorem sample_within_domain (llo lhi lu ulo uhi uu : ℝ)
    (choices : List ℚ) (k : ℕ)
    (hllo : 0 < llo) (hllt : llo < lhi) (hl0 : 0 ≤ lu) (hl1 : lu ≤ 1)
    (hult : ulo < uhi) (hu0 : 0 ≤ uu) (hu1 : uu ≤ 1)
    (hc : choices ≠ []) :
    (loguniformSample llo lhi lu =
      Real.exp (uniformSample (Real.log llo) (Real.log lhi) lu)) ∧
    (llo ≤ loguniformSample llo lhi lu ∧ loguniformSample llo lhi lu ≤ lhi) ∧
    (ulo ≤ uniformSample ulo uhi uu ∧ uniformSample ulo uhi uu ≤ uhi) ∧
    ∃ c, categoricalSample choices k = some c ∧ c ∈ choices :=
  ⟨rfl, loguniformSample_mem llo lhi lu hllo hllt hl0 hl1,
    uniformSample_mem ulo uhi uu (le_of_lt hult) hu0 hu1,
    categoricalSample_mem choices k hc⟩

/-- Witness for C6: the log-uniform domain at `lo = 1`, `hi = 2`, `u = 0`,
the uniform domain at the notebook momentum domain `[0, 1]` with `u = 0`,
and the choice set `[3]`. -/
theorem sample_within_domain_witness :
    ((0 : ℝ) < 1 ∧ (1 : ℝ) < 2 ∧ (0 : ℝ) ≤ 0 ∧ (0 : ℝ) ≤ 1 ∧
      (0 : ℝ) < 1 ∧ ([(3 : ℚ)] ≠ [])) ∧
      ((loguniformSample 1 2 0 =
          Real.exp (uniformSample (Real.log 1) (Real.log 2) 0)) ∧
        ((1 : ℝ) ≤ loguniformSample 1 2 0 ∧ loguniformSample 1 2 0 ≤ 2) ∧
        ((0 : ℝ) ≤ uniformSample 0 1 0 ∧ uniformSample 0 1 0 ≤ 1) ∧
        ∃ c, categoricalSample [(3 : ℚ)] 0 = some c ∧ c ∈ [(3 : ℚ)]) :=
  ⟨⟨one_pos, one_lt_two, le_refl 0, zero_le_one, one_pos, by simp⟩,
    sample_within_domain 1 2 0 0 1 0 [(3 : ℚ)] 0 one_pos one_lt_two
      (le_refl 0) zero_le_one one_pos (le_refl 0) zero_le_one (by simp)⟩

theorem unitDraw_mem (s : ℕ) : 0 ≤ unitDraw s ∧ unitDraw s ≤ 1 := by
  unfold unitDraw
  constructor
  · positivity
  · rw [div_le_one (by norm_num)]
    have h : lcgNext s < 2147483648 := Nat.mod_lt _ (by norm_num)
    exact_mod_cast le_of_lt h

/-- Claim C7: `sample` and `propose` are deterministic — for a fixed rng
seed and an identical trial-history ordering two runs produce identical
configurations — and `propose` tolerates a history of length 1 without
failing: it falls back to the space-filling draw and its momentum
component still lies inside `[0, 1]`. -/
theorem sample_propose_deterministic (seed1 seed2 : ℕ)
    (hist1 hist2 : List TrialResult) (tr : TrialResult)
    (hseed : seed1 = seed2) (hhist : hist1 = hist2) :
    sample seed1 = sample seed2 ∧
    propose hist1 seed1 = propose hist2 seed2 ∧
    propose [tr] seed1 = sample seed1 ∧
    (0 ≤ (propose [tr] seed1).2 ∧ (propose [tr] seed1).2 ≤ 1) := by
  subst hseed
  subst hhist
  refine ⟨rfl, rfl, by simp [propose], ?_⟩
  have hu := unitDraw_mem (lcgNext seed1)
  have hb := uniformSample_mem 0 1 (unitDraw (lcgNext seed1))
    zero_le_one hu.1 hu.2
  simpa [propose, sample, space_momentum] using hb

/-- Witness for C7 at seed 0 and equal singleton histories. -/
theorem sample_propose_deterministic_witness :
    ((0 : ℕ) = 0 ∧ [wTrial 1 1] = [wTrial 1 1]) ∧
      (sample 0 = sample 0 ∧
        propose [wTrial 1 1] 0 = propose [wTrial 1 1] 0 ∧
        propose [wTrial 1 1] 0 = sample 0 ∧
        (0 ≤ (propose [wTrial 1 1] 0).2 ∧ (propose [wTrial 1 1] 0).2 ≤ 1)) :=
  ⟨⟨rfl, rfl⟩,
    sample_propose_deterministic 0 0 [wTrial 1 1] [wTrial 1 1]
      (wTrial 1 1) rfl rfl⟩

end WineML
